import Mathlib

/-!
# Cluster operations of `pkg/configure-cluster/cluster_operations.go`

A shallow embedding of the Go file and theorems about it.

* Go `string` values are Lean `String`s (the valid UTF-8 strings).
* Go `int` values are Lean `Int`s inside `[-2^63, 2^63)`, and every arithmetic
  operation of `reshard` is wrapped to 64 bits with `wrap64`, as the machine
  does it.
* An `error` is identified with the text of its `Error()` method; a nil error
  is `none`.
* `exec.ExecIntoPod c.RestConfig` is a parameter `exec`: a state-passing
  function from the call (pod, optional stdin, command) to the pair
  `(output, error)`. Every operation returns the events it produced, in order.
* The command builders (`ClusterCreateCmd`, `PingCmd`, ...) are declared in
  another file; a command is recorded as the builder that was invoked together
  with its arguments.
* `log.Infof` writes to a logging sink only and is not modelled, except that
  evaluating its arguments may panic (see `reshard`).
-/

namespace ConfigureCluster

/-! ## Data model -/

/-- An error value, identified with its message. -/
abbrev Error := String

/-- The part of `core.PodStatus` the file reads. -/
structure PodStatus where
  PodIP : String
deriving DecidableEq, Repr

/-- The part of `core.Pod` the file reads; `Name` identifies the pod. The
operations take a pointer to a pod, which is taken to be non-nil. -/
structure Pod where
  Name : String
  Status : PodStatus
deriving DecidableEq, Repr

/-- The fields of `RedisNode` used by `reshard`. -/
structure RedisNode where
  SlotStart : List Int
  SlotEnd : List Int
  ID : String
  IP : String
deriving DecidableEq, Repr

/-- A command line, recorded as the builder invoked and its arguments. The
builders that are methods of `Config` carry their receiver. -/
inductive Cmd (Config : Type) where
  | ClusterCreateCmd (c : Config) (replicas : Int) (addrs : List String)
  | AddNodeAsMasterCmd (c : Config) (newAddr existingAddr : String)
  | AddNodeAsSlaveCmd (c : Config) (newAddr existingAddr masterId : String)
  | DeleteNodeCmd (c : Config) (existingAddr deletingNodeID : String)
  | PingCmd (ip : String)
  | ClusterNodesCmd (ip : String)
  | ClusterMeetCmd (senderIP receiverIP receiverPort : String)
  | ClusterResetCmd (ip resetType : String)
  | ClusterFailoverCmd (ip : String)
  | ClusterReplicateCmd (receivingNodeIP masterNodeID : String)
  | ReshardCmd (c : Config) (srcIP srcID dstIP dstID : String) (start stop : Int)
deriving DecidableEq, Repr

/-- One invocation of `exec.ExecIntoPod`: the pod, the `exec.Input` option when
one is given, and the `exec.Command` option. -/
structure Call (Config : Type) where
  pod : Pod
  input : Option String
  command : Cmd Config
deriving DecidableEq, Repr

/-- What `exec.ExecIntoPod` returns: `(string, error)`. -/
structure ExecResult where
  out : String
  err : Option Error
deriving DecidableEq, Repr

/-- A call together with what the executor answered. -/
structure Event (Config : Type) where
  call : Call Config
  result : ExecResult
deriving DecidableEq, Repr

/-- The remote executor, with its hidden state made explicit. -/
abbrev Executor (Config σ : Type) := σ → Call Config → ExecResult × σ

/-- The result of running an operation: the returned value, the executor state
afterwards and the calls made, oldest first. -/
structure Run (Config σ α : Type) where
  ret : α
  state : σ
  trace : List (Event Config)

/-- How `reshard` ends: a nil error, a non-nil error, or a run-time panic
(index out of range). -/
inductive Outcome where
  | ok
  | error (msg : Error)
  | panic
deriving DecidableEq, Repr

/-! ## Library functions used by the file -/

/-- The double quote character. -/
def dquote : Char := Char.ofNat 34

/-- The backslash character. -/
def bslash : Char := Char.ofNat 92

/-- Digit table `lowerhex` of `strconv`. -/
def lowerhex (n : Nat) : Char := "0123456789abcdef".data.getD (n % 16) '0'

/-- Function `strconv.IsPrint`; the table lookup for runes above Latin-1 is the
parameter `tbl`. -/
def IsPrint (tbl : Char → Bool) (r : Char) : Bool :=
  if r.toNat ≤ 0xFF then
    if 0x20 ≤ r.toNat ∧ r.toNat ≤ 0x7E then true
    else if 0xA1 ≤ r.toNat ∧ r.toNat ≤ 0xFF then r.toNat != 0xAD
    else false
  else tbl r

/-- Function `appendEscapedRune` of `strconv` with quote `"`, `ASCIIonly` and
`graphicOnly` false: the characters one rune contributes to a quoted string. -/
def escapedRune (tbl : Char → Bool) (r : Char) : List Char :=
  if r = dquote ∨ r = bslash then [bslash, r]
  else if IsPrint tbl r then [r]
  else if r.toNat = 7 then [bslash, 'a']
  else if r.toNat = 8 then [bslash, 'b']
  else if r.toNat = 12 then [bslash, 'f']
  else if r.toNat = 10 then [bslash, 'n']
  else if r.toNat = 13 then [bslash, 'r']
  else if r.toNat = 9 then [bslash, 't']
  else if r.toNat = 11 then [bslash, 'v']
  else if r.toNat < 0x20 ∨ r.toNat = 0x7F then
    [bslash, 'x', lowerhex (r.toNat / 16), lowerhex r.toNat]
  else if r.toNat < 0x10000 then
    [bslash, 'u', lowerhex (r.toNat / 4096), lowerhex (r.toNat / 256),
      lowerhex (r.toNat / 16), lowerhex r.toNat]
  else
    [bslash, 'U', lowerhex (r.toNat / 268435456), lowerhex (r.toNat / 16777216),
      lowerhex (r.toNat / 1048576), lowerhex (r.toNat / 65536),
      lowerhex (r.toNat / 4096), lowerhex (r.toNat / 256),
      lowerhex (r.toNat / 16), lowerhex r.toNat]

/-- Function `strconv.Quote`, which is what the verb `%q` prints for a string. -/
def Quote (tbl : Char → Bool) (s : String) : String :=
  String.mk (dquote :: (s.data.flatMap (escapedRune tbl) ++ [dquote]))

/-- Verb `%v` applied to a slice of strings: the elements separated by blanks,
in square brackets. -/
def fmtV (xs : List String) : String := "[" ++ " ".intercalate xs ++ "]"

/-- Verb `%d` applied to an int. -/
def fmtD (n : Int) : String := toString n

/-- Function `errors.Wrapf` on a non-nil error, the message already formatted:
the new error reads `msg: cause`. -/
def Wrapf (err : Error) (msg : String) : Error := msg ++ ": " ++ err

/-- Function `unicode.IsSpace`. -/
def IsSpace (r : Char) : Bool :=
  let n := r.toNat
  if n ≤ 0xFF then
    n = 9 ∨ n = 10 ∨ n = 11 ∨ n = 12 ∨ n = 13 ∨ n = 0x20 ∨ n = 0x85 ∨ n = 0xA0
  else
    n = 0x1680 ∨ (0x2000 ≤ n ∧ n ≤ 0x200A) ∨ n = 0x2028 ∨ n = 0x2029 ∨ n = 0x202F
      ∨ n = 0x205F ∨ n = 0x3000

/-- Function `strings.TrimSpace`: drops the leading and the trailing white space. -/
def TrimSpace (s : String) : String :=
  String.mk ((s.data.dropWhile IsSpace).reverse.dropWhile IsSpace).reverse

/-- A Go `int` of 64 bits: the value congruent to `x` in `[-2^63, 2^63)`. The
result of every arithmetic operation on ints goes through it. -/
def wrap64 (x : Int) : Int :=
  (x + 9223372036854775808) % 18446744073709551616 - 9223372036854775808

/-- Indexing a slice with a Go int; `none` stands for the index-out-of-range
panic. -/
def index {α : Type} (xs : List α) (i : Int) : Option α :=
  if i < 0 then none else xs.get? i.toNat

/-! ## The operations -/

section Operations

variable {Config σ : Type}

/-- Method `createCluster` (lines 27-38). -/
def createCluster (exec : Executor Config σ) (c : Config) (pod : Pod)
    (addrs : List String) (st : σ) : Run Config σ (Option Error) :=
  let call : Call Config := ⟨pod, some "yes", Cmd.ClusterCreateCmd c 0 addrs⟩
  let r := exec st call
  match r.1.err with
  | some err =>
    ⟨some (Wrapf err ("Failed to create cluster using (" ++ fmtV addrs ++ ")")), r.2,
      [⟨call, r.1⟩]⟩
  | none => ⟨none, r.2, [⟨call, r.1⟩]⟩

/-- Method `addNode` (lines 40-54). -/
def addNode (tbl : Char → Bool) (exec : Executor Config σ) (c : Config) (pod : Pod)
    (newAddr existingAddr masterId : String) (st : σ) : Run Config σ (Option Error) :=
  if masterId = "" then
    let call : Call Config := ⟨pod, none, Cmd.AddNodeAsMasterCmd c newAddr existingAddr⟩
    let r := exec st call
    match r.1.err with
    | some err =>
      ⟨some (Wrapf err ("Failed to add " ++ Quote tbl newAddr ++ " as a master")), r.2,
        [⟨call, r.1⟩]⟩
    | none => ⟨none, r.2, [⟨call, r.1⟩]⟩
  else
    let call : Call Config :=
      ⟨pod, none, Cmd.AddNodeAsSlaveCmd c newAddr existingAddr masterId⟩
    let r := exec st call
    match r.1.err with
    | some err =>
      ⟨some (Wrapf err ("Failed to add " ++ Quote tbl newAddr
        ++ " as a slave of master with id " ++ Quote tbl masterId)), r.2, [⟨call, r.1⟩]⟩
    | none => ⟨none, r.2, [⟨call, r.1⟩]⟩

/-- Method `deleteNode` (lines 56-63). -/
def deleteNode (tbl : Char → Bool) (exec : Executor Config σ) (c : Config) (pod : Pod)
    (existingAddr deletingNodeID : String) (st : σ) : Run Config σ (Option Error) :=
  let call : Call Config := ⟨pod, none, Cmd.DeleteNodeCmd c existingAddr deletingNodeID⟩
  let r := exec st call
  match r.1.err with
  | some err =>
    ⟨some (Wrapf err ("Failed to delete node with ID " ++ Quote tbl deletingNodeID)), r.2,
      [⟨call, r.1⟩]⟩
  | none => ⟨none, r.2, [⟨call, r.1⟩]⟩

/-- Method `ping` (lines 65-72). -/
def ping (tbl : Char → Bool) (exec : Executor Config σ) (pod : Pod) (ip : String)
    (st : σ) : Run Config σ (String × Option Error) :=
  let call : Call Config := ⟨pod, none, Cmd.PingCmd ip⟩
  let r := exec st call
  match r.1.err with
  | some err =>
    ⟨("", some (Wrapf err ("Failed to ping " ++ Quote tbl pod.Status.PodIP))), r.2,
      [⟨call, r.1⟩]⟩
  | none => ⟨(TrimSpace r.1.out, none), r.2, [⟨call, r.1⟩]⟩

/-- Method `getClusterNodes` (lines 74-81). -/
def getClusterNodes (tbl : Char → Bool) (exec : Executor Config σ) (pod : Pod)
    (ip : String) (st : σ) : Run Config σ (String × Option Error) :=
  let call : Call Config := ⟨pod, none, Cmd.ClusterNodesCmd ip⟩
  let r := exec st call
  match r.1.err with
  | some err =>
    ⟨("", some (Wrapf err ("Failed to get cluster nodes from " ++ Quote tbl ip))), r.2,
      [⟨call, r.1⟩]⟩
  | none => ⟨(TrimSpace r.1.out, none), r.2, [⟨call, r.1⟩]⟩

/-- Method `clusterMeet` (lines 83-90). -/
def clusterMeet (tbl : Char → Bool) (exec : Executor Config σ) (pod : Pod)
    (senderIP receiverIP receiverPort : String) (st : σ) : Run Config σ (Option Error) :=
  let call : Call Config := ⟨pod, none, Cmd.ClusterMeetCmd senderIP receiverIP receiverPort⟩
  let r := exec st call
  match r.1.err with
  | some err =>
    ⟨some (Wrapf err ("Failed to meet node " ++ Quote tbl senderIP ++ " with node "
      ++ Quote tbl receiverIP)), r.2, [⟨call, r.1⟩]⟩
  | none => ⟨none, r.2, [⟨call, r.1⟩]⟩

/-- Method `clusterReset` (lines 92-99). -/
def clusterReset (tbl : Char → Bool) (exec : Executor Config σ) (pod : Pod)
    (ip resetType : String) (st : σ) : Run Config σ (Option Error) :=
  let call : Call Config := ⟨pod, none, Cmd.ClusterResetCmd ip resetType⟩
  let r := exec st call
  match r.1.err with
  | some err => ⟨some (Wrapf err ("Failed to reset node " ++ Quote tbl ip)), r.2, [⟨call, r.1⟩]⟩
  | none => ⟨none, r.2, [⟨call, r.1⟩]⟩

/-- Method `clusterFailover` (lines 101-108). -/
def clusterFailover (tbl : Char → Bool) (exec : Executor Config σ) (pod : Pod)
    (ip : String) (st : σ) : Run Config σ (Option Error) :=
  let call : Call Config := ⟨pod, none, Cmd.ClusterFailoverCmd ip⟩
  let r := exec st call
  match r.1.err with
  | some err =>
    ⟨some (Wrapf err ("Failed to failover node " ++ Quote tbl ip)), r.2, [⟨call, r.1⟩]⟩
  | none => ⟨none, r.2, [⟨call, r.1⟩]⟩

/-- Method `clusterReplicate` (lines 110-118). -/
def clusterReplicate (tbl : Char → Bool) (exec : Executor Config σ) (pod : Pod)
    (receivingNodeIP masterNodeID : String) (st : σ) : Run Config σ (Option Error) :=
  let call : Call Config := ⟨pod, none, Cmd.ClusterReplicateCmd receivingNodeIP masterNodeID⟩
  let r := exec st call
  match r.1.err with
  | some err =>
    ⟨some (Wrapf err ("Failed to replicate node " ++ Quote tbl receivingNodeIP
      ++ " of node with ID " ++ masterNodeID)), r.2, [⟨call, r.1⟩]⟩
  | none => ⟨none, r.2, [⟨call, r.1⟩]⟩

/-- The loop of `reshard` (lines 130-149). The first list holds the elements of
`SlotStart` from index `i` on, so its head is `SlotStart[i]`; `need` is the
loop variable of that name. Reading `SlotEnd[i]` panics when `SlotEnd` is too
short. The subtractions and additions of lines 137, 138 and 148 wrap to 64
bits, one operation at a time. -/
def reshardLoop (tbl : Char → Bool) (exec : Executor Config σ) (c : Config) (pod : Pod)
    (s d : RedisNode) (requstedSlotsCount : Int) :
    List Int → Nat → Int → σ → Run Config σ Outcome
  | [], _, _, st => ⟨Outcome.ok, st, []⟩
  | start :: rest, i, need, st =>
    if need ≤ 0 then ⟨Outcome.ok, st, []⟩
    else
      match s.SlotEnd.get? i with
      | none => ⟨Outcome.panic, st, []⟩
      | some end0 =>
        let stop := if wrap64 (wrap64 (end0 - start) + 1) > need
          then wrap64 (wrap64 (start + need) - 1) else end0
        let call : Call Config :=
          ⟨pod, none, Cmd.ReshardCmd c s.IP s.ID d.IP d.ID start stop⟩
        let r := exec st call
        match r.1.err with
        | some err =>
          ⟨Outcome.error (Wrapf err ("Failed to reshard " ++ fmtD requstedSlotsCount
            ++ " slots from " ++ Quote tbl s.IP ++ " to " ++ Quote tbl d.IP)), r.2,
            [⟨call, r.1⟩]⟩
        | none =>
          let k := reshardLoop tbl exec c pod s d requstedSlotsCount rest (i + 1)
            (wrap64 (need - wrap64 (wrap64 (stop - start) + 1))) r.2
          ⟨k.ret, k.state, ⟨call, r.1⟩ :: k.trace⟩

/-- Method `reshard` (lines 120-152). The arguments of `log.Infof` read
`nodes[src][0]` and `nodes[dst][0]`, which panics before any command when one
of them does not exist. -/
def reshard (tbl : Char → Bool) (exec : Executor Config σ) (c : Config) (pod : Pod)
    (nodes : List (List RedisNode)) (src dst requstedSlotsCount : Int) (st : σ) :
    Run Config σ Outcome :=
  match index nodes src with
  | none => ⟨Outcome.panic, st, []⟩
  | some [] => ⟨Outcome.panic, st, []⟩
  | some (s :: _) =>
    match index nodes dst with
    | none => ⟨Outcome.panic, st, []⟩
    | some [] => ⟨Outcome.panic, st, []⟩
    | some (d :: _) =>
      reshardLoop tbl exec c pod s d requstedSlotsCount s.SlotStart 0 requstedSlotsCount st

end Operations

/-! ## Notions of the specification -/

section Specification

variable {Config σ : Type}

/-- The element `nodes[i][0]`, when it exists. -/
def firstNode (nodes : List (List RedisNode)) (i : Int) : Option RedisNode :=
  (index nodes i).bind List.head?

/-- The slot ranges of a node, in the reported order: the pairs
`(SlotStart[i], SlotEnd[i])`. -/
def slotRanges (n : RedisNode) : List (Int × Int) := n.SlotStart.zip n.SlotEnd

/-- Number of slots of the inclusive range `[start, end]`. -/
def rangeSize (r : Int × Int) : Int := r.2 - r.1 + 1

/-- Total of the range sizes. -/
def totalSlots (rs : List (Int × Int)) : Int := (rs.map rangeSize).sum

/-- The range a command names, for a reshard command. -/
def Cmd.range? : Cmd Config → Option (Int × Int)
  | Cmd.ReshardCmd _ _ _ _ _ start stop => some (start, stop)
  | _ => none

/-- The ranges named in the reshard commands of a trace, in order. -/
def issuedRanges (tr : List (Event Config)) : List (Int × Int) :=
  tr.filterMap fun ev => ev.call.command.range?

/-- The greedy planner as the specification words it: walk the ranges in the
given order; stop when the need is not positive; take the whole range when its
size is at most the need and go on with the need reduced by it; otherwise take
`[start, start + need - 1]` and stop. -/
def specPlan : List (Int × Int) → Int → List (Int × Int)
  | [], _ => []
  | (start, stop) :: rest, need =>
    if need ≤ 0 then []
    else if stop - start + 1 ≤ need then
      (start, stop) :: specPlan rest (need - (stop - start + 1))
    else [(start, start + need - 1)]

/-- The migration command for one planned range (step 3 of the algorithm). -/
def reshardCall (c : Config) (pod : Pod) (s d : RedisNode) (r : Int × Int) : Call Config :=
  ⟨pod, none, Cmd.ReshardCmd c s.IP s.ID d.IP d.ID r.1 r.2⟩

/-- The message `reshard` wraps a failure in. -/
def reshardError (tbl : Char → Bool) (s d : RedisNode) (n : Int) (err : Error) : Error :=
  Wrapf err ("Failed to reshard " ++ fmtD n ++ " slots from " ++ Quote tbl s.IP ++ " to "
    ++ Quote tbl d.IP)

/-- Steps executed strictly in order, aborting at the first failure: what the
specification asks of a multi-step sequence. -/
def runSteps (exec : Executor Config σ) (wrap : Error → Error) :
    List (Call Config) → σ → Run Config σ Outcome
  | [], st => ⟨Outcome.ok, st, []⟩
  | call :: rest, st =>
    match (exec st call).1.err with
    | some err => ⟨Outcome.error (wrap err), (exec st call).2, [⟨call, (exec st call).1⟩]⟩
    | none =>
      ⟨(runSteps exec wrap rest (exec st call).2).ret,
        (runSteps exec wrap rest (exec st call).2).state,
        ⟨call, (exec st call).1⟩ :: (runSteps exec wrap rest (exec st call).2).trace⟩

/-- Value of the variable `need` once the commands for the ranges `rs` have
succeeded (line 148), starting from `need`. -/
def needAfter (need : Int) (rs : List (Int × Int)) : Int :=
  rs.foldl (fun n r => n - (r.2 - r.1 + 1)) need

/-- Number of ranges of a list that contain the slot `x`. -/
def covers (rs : List (Int × Int)) (x : Int) : Nat :=
  rs.countP fun r => decide (r.1 ≤ x ∧ x ≤ r.2)

/-- Two ranges share no slot (for ranges with start below or at end). -/
def rangesApart (a b : Int × Int) : Prop := a.2 < b.1 ∨ b.2 < a.1

instance (a b : Int × Int) : Decidable (rangesApart a b) := by
  unfold rangesApart; infer_instance

/-- What stays with the source: of the k-th range the part after the k-th
migrated range, and every range no command was issued for. -/
def remainder : List (Int × Int) → List (Int × Int) → List (Int × Int)
  | [], _ => []
  | q :: qs, [] => q :: qs
  | q :: qs, r :: rs => (r.2 + 1, q.2) :: remainder qs rs

/-- The value is a Go `int` of 64 bits. -/
def FitsInt (x : Int) : Prop := -9223372036854775808 ≤ x ∧ x < 9223372036854775808

instance (x : Int) : Decidable (FitsInt x) := by
  unfold FitsInt; infer_instance

/-- The start and the end of the range are 64-bit ints and so are `end - start`
and `end - start + 1`: the size of the range is computed without overflow.
Every range of slot numbers `0..16383` is such a range. -/
def RangeFits (q : Int × Int) : Prop :=
  FitsInt q.1 ∧ FitsInt q.2 ∧ FitsInt (q.2 - q.1) ∧ FitsInt (q.2 - q.1 + 1)

instance (q : Int × Int) : Decidable (RangeFits q) := by
  unfold RangeFits; infer_instance

/-- The most the need can grow over the ranges: a range of negative size
`end - start + 1` increases the need by its absolute value (line 148). It is 0
when every range has start ≤ end. -/
def needGrowth (rs : List (Int × Int)) : Int :=
  (rs.map fun q => max 0 (q.1 - q.2 - 1)).sum

/-- The run `r` of an operation started in state `st` made exactly one call to
the executor, recorded the answer to it, left the executor in the state after
that call, and returned an error (read off the result by `err`) exactly when
the answer carried one. -/
def OneCall {α : Type} (exec : Executor Config σ) (st : σ) (r : Run Config σ α)
    (err : α → Option Error) : Prop :=
  ∃ call, r.trace = [⟨call, (exec st call).1⟩] ∧ r.state = (exec st call).2 ∧
    ((err r.ret = none) ↔ ((exec st call).1.err = none))

/-- The string `t` is `s` without a leading and a trailing run of white space,
and neither starts nor ends with white space. -/
def Trimmed (s t : String) : Prop :=
  ∃ pre post : List Char, s.data = pre ++ t.data ++ post ∧
    (∀ ch ∈ pre, IsSpace ch = true) ∧ (∀ ch ∈ post, IsSpace ch = true) ∧
    (∀ ch, t.data.head? = some ch → IsSpace ch = false) ∧
    (∀ ch, t.data.getLast? = some ch → IsSpace ch = false)

/-- The list `p` follows `q` position by position: each range of `p` starts
where the range of `q` at the same position starts, is not empty and ends
inside it. -/
def Inside : List (Int × Int) → List (Int × Int) → Prop
  | [], _ => True
  | _ :: _, [] => False
  | r :: rs, q :: qs => r.1 = q.1 ∧ r.1 ≤ r.2 ∧ r.2 ≤ q.2 ∧ Inside rs qs

/-- Every range of the list has between one slot and the need left when its
turn comes. -/
def Bounded : Int → List (Int × Int) → Prop
  | _, [] => True
  | need, r :: rs => 1 ≤ rangeSize r ∧ rangeSize r ≤ need ∧ Bounded (need - rangeSize r) rs

end Specification

/-! ## Concrete inputs -/

/-- An executor that answers every call with success and no output. -/
def okExec : Executor Unit Unit := fun st _ => (⟨"", none⟩, st)

/-- An executor that fails every call with the error `boom`. -/
def failExec : Executor Unit Unit := fun st _ => (⟨"", some "boom"⟩, st)

/-- A printability table that knows no printable rune above Latin-1. -/
def noTable : Char → Bool := fun _ => false

/-- A pod whose own address is 10.0.0.1. -/
def pod0 : Pod := ⟨"redis-shard0-0", ⟨"10.0.0.1"⟩⟩

/-- A source owning `[0,99]` and `[200,249]`. -/
def srcTwo : RedisNode := ⟨[0, 200], [99, 249], "aaaa", "10.0.0.1"⟩

/-- A source owning `[0,49]`. -/
def srcFifty : RedisNode := ⟨[0], [49], "aaaa", "10.0.0.1"⟩

/-- A source reporting the ill-formed range `[5,3]`. -/
def srcBad : RedisNode := ⟨[5], [3], "aaaa", "10.0.0.1"⟩

/-- A source reporting the single range `[0, 2^63 - 1]`. -/
def srcHuge : RedisNode := ⟨[0], [9223372036854775807], "aaaa", "10.0.0.1"⟩

/-- A source reporting the ill-formed range `[5,3]` and then `[10,20]`. -/
def srcWrap : RedisNode := ⟨[5, 10], [3, 20], "aaaa", "10.0.0.1"⟩

/-- A node ID holding a double quote: the three characters `a`, `"`, `b`. -/
def quoteID : String := String.mk ['a', dquote, 'b']

/-- An executor that answers every call with ` PONG` followed by a line feed. -/
def pongExec : Executor Unit Unit :=
  fun st _ => (⟨String.mk [' ', 'P', 'O', 'N', 'G', Char.ofNat 10], none⟩, st)

/-- A destination owning nothing. -/
def dstNode : RedisNode := ⟨[], [], "bbbb", "10.0.0.2"⟩

/-! ## Lemmas -/

section Lemmas

variable {Config σ : Type}

theorem wrap64_eq (x : Int) (h : FitsInt x) : wrap64 x = x := by
  unfold FitsInt at h
  unfold wrap64
  omega

theorem needGrowth_nonneg (rs : List (Int × Int)) : 0 ≤ needGrowth rs := by
  induction rs with
  | nil => simp [needGrowth]
  | cons q qs ih =>
    simp only [needGrowth, List.map_cons, List.sum_cons] at ih ⊢
    omega

theorem needGrowth_zero (rs : List (Int × Int)) (h : ∀ q ∈ rs, q.1 ≤ q.2) :
    needGrowth rs = 0 := by
  induction rs with
  | nil => simp [needGrowth]
  | cons q qs ih =>
    have h1 := h q (by simp)
    have h2 := ih (fun r hr => h r (by simp [hr]))
    simp only [needGrowth, List.map_cons, List.sum_cons] at h2 ⊢
    omega

theorem reshardLoop_zero (tbl : Char → Bool) (exec : Executor Config σ) (c : Config)
    (pod : Pod) (s d : RedisNode) (n : Int) (starts : List Int) (i : Nat) (need : Int)
    (st : σ) (h : need ≤ 0) :
    reshardLoop tbl exec c pod s d n starts i need st = ⟨Outcome.ok, st, []⟩ := by
  cases starts with
  | nil => rfl
  | cons a rest => simp [reshardLoop, h]

/-- When no operation overflows, the loop is the in-order execution of the
planned commands: every range is computed without overflow and the need, with
all it can still grow by, stays below `2^63`. -/
theorem reshardLoop_eq_runSteps (tbl : Char → Bool) (exec : Executor Config σ) (c : Config)
    (pod : Pod) (s d : RedisNode) (n : Int) :
    ∀ (starts ends pre : List Int) (need : Int) (st : σ),
      s.SlotEnd = pre ++ ends → starts.length ≤ ends.length →
      (∀ q ∈ starts.zip ends, RangeFits q) →
      need + needGrowth (starts.zip ends) < 9223372036854775808 →
      reshardLoop tbl exec c pod s d n starts pre.length need st
        = runSteps exec (reshardError tbl s d n)
            ((specPlan (starts.zip ends) need).map (reshardCall c pod s d)) st := by
  intro starts
  induction starts with
  | nil => intro ends pre need st _ _ _ _; simp [reshardLoop, specPlan, runSteps]
  | cons a rest ih =>
    intro ends pre need st hs hl hq hg
    cases ends with
    | nil => simp at hl
    | cons e ends =>
      have hget : s.SlotEnd.get? pre.length = some e := by
        rw [hs, List.get?_eq_getElem?, List.getElem?_append_right (le_refl _)]; simp
      have hs2 : s.SlotEnd = (pre ++ [e]) ++ ends := by simp [hs]
      have hl2 : rest.length ≤ ends.length := by simpa using hl
      have hb := hq (a, e) (by simp)
      simp only [RangeFits, FitsInt] at hb
      have hq2 : ∀ q ∈ rest.zip ends, RangeFits q := fun q hq1 => hq q (by simp [hq1])
      have hgn := needGrowth_nonneg (rest.zip ends)
      simp only [List.zip_cons_cons, needGrowth, List.map_cons, List.sum_cons] at hg hgn
      have ih2 := ih ends (pre ++ [e])
      simp only [List.length_append, List.length_singleton] at ih2
      by_cases hn : need ≤ 0
      · simp [reshardLoop, specPlan, runSteps, hn]
      · have w1 : wrap64 (e - a) = e - a := wrap64_eq _ ⟨by omega, by omega⟩
        have w2 : wrap64 (e - a + 1) = e - a + 1 := wrap64_eq _ ⟨by omega, by omega⟩
        by_cases hsz : e - a + 1 ≤ need
        · have hgt : ¬ (e - a + 1 > need) := by omega
          have w7 : wrap64 (need - (e - a + 1)) = need - (e - a + 1) :=
            wrap64_eq _ ⟨by omega, by omega⟩
          simp only [reshardLoop, hn, hget, w1, w2, hgt, if_false, w7, List.zip_cons_cons,
            specPlan, hsz, if_true, List.map_cons, runSteps, reshardCall, reshardError]
          cases hr : (exec st ⟨pod, none, Cmd.ReshardCmd c s.IP s.ID d.IP d.ID a e⟩).1.err with
          | some err => simp
          | none =>
            simp only
            rw [ih2 _ _ hs2 hl2 hq2 (by simp only [needGrowth]; omega)]
            rfl
        · have hgt : e - a + 1 > need := by omega
          have w3 : wrap64 (a + need) = a + need := wrap64_eq _ ⟨by omega, by omega⟩
          have w4 : wrap64 (a + need - 1) = a + need - 1 := wrap64_eq _ ⟨by omega, by omega⟩
          have w5 : wrap64 (a + need - 1 - a) = a + need - 1 - a :=
            wrap64_eq _ ⟨by omega, by omega⟩
          have w6 : wrap64 (a + need - 1 - a + 1) = a + need - 1 - a + 1 :=
            wrap64_eq _ ⟨by omega, by omega⟩
          have w7 : wrap64 (need - (a + need - 1 - a + 1)) = 0 := by
            have : need - (a + need - 1 - a + 1) = 0 := by omega
            rw [this]; rfl
          simp only [reshardLoop, hn, hget, w1, w2, hgt, if_true, if_false, w3, w4, w5, w6, w7,
            List.zip_cons_cons, specPlan, hsz, List.map_cons, List.map_nil, runSteps,
            reshardCall, reshardError]
          cases hr : (exec st ⟨pod, none,
              Cmd.ReshardCmd c s.IP s.ID d.IP d.ID a (a + need - 1)⟩).1.err with
          | some err => simp
          | none =>
            simp only
            rw [reshardLoop_zero _ _ _ _ _ _ _ _ _ _ _ (le_refl 0)]

theorem firstNode_some (nodes : List (List RedisNode)) (i : Int) (s : RedisNode)
    (h : firstNode nodes i = some s) : ∃ ss, index nodes i = some (s :: ss) := by
  unfold firstNode at h
  cases hi : index nodes i with
  | none => simp [hi] at h
  | some l =>
    cases l with
    | nil => simp [hi] at h
    | cons a ss =>
      simp [hi] at h
      exact ⟨ss, by rw [h]⟩

/-- With both nodes present, an end for every start and no overflow, `reshard`
executes the commands of the plan in order. -/
theorem reshard_eq_runSteps (tbl : Char → Bool) (exec : Executor Config σ) (c : Config)
    (pod : Pod) (nodes : List (List RedisNode)) (src dst n : Int) (st : σ) (s d : RedisNode)
    (hs : firstNode nodes src = some s) (hd : firstNode nodes dst = some d)
    (hl : s.SlotStart.length ≤ s.SlotEnd.length)
    (hfit : ∀ q ∈ slotRanges s, RangeFits q)
    (hg : n + needGrowth (slotRanges s) < 9223372036854775808) :
    reshard tbl exec c pod nodes src dst n st
      = runSteps exec (reshardError tbl s d n)
          ((specPlan (slotRanges s) n).map (reshardCall c pod s d)) st := by
  obtain ⟨ss, hs1⟩ := firstNode_some nodes src s hs
  obtain ⟨ds, hd1⟩ := firstNode_some nodes dst d hd
  have h := reshardLoop_eq_runSteps tbl exec c pod s d n s.SlotStart s.SlotEnd [] n st
    (by simp) hl hfit hg
  simp only [reshard, hs1, hd1]
  simpa [slotRanges] using h

theorem issuedRanges_eq (c : Config) (pod : Pod) (s d : RedisNode)
    (tr : List (Event Config)) (rs : List (Int × Int))
    (h : tr.map Event.call = rs.map (reshardCall c pod s d)) : issuedRanges tr = rs := by
  induction tr generalizing rs with
  | nil =>
    cases rs with
    | nil => rfl
    | cons r rs => simp at h
  | cons ev tr ih =>
    cases rs with
    | nil => simp at h
    | cons r rs =>
      simp only [List.map_cons, List.cons.injEq] at h
      have h2 := ih rs h.2
      have h3 : ev.call.command.range? = some r := by
        rw [h.1]; simp [reshardCall, Cmd.range?]
      simp only [issuedRanges, List.filterMap_cons, h3]
      exact congrArg _ h2

theorem runSteps_calls (exec : Executor Config σ) (wrap : Error → Error) :
    ∀ (calls : List (Call Config)) (st : σ),
      ∃ k, k ≤ calls.length ∧
        (runSteps exec wrap calls st).trace.map Event.call = calls.take k := by
  intro calls
  induction calls with
  | nil => intro st; exact ⟨0, by simp, by simp [runSteps]⟩
  | cons call rest ih =>
    intro st
    cases hr : (exec st call).1.err with
    | some err => exact ⟨1, by simp, by simp [runSteps, hr]⟩
    | none =>
      obtain ⟨k, hk, hk2⟩ := ih (exec st call).2
      exact ⟨k + 1, by simpa using hk, by simp [runSteps, hr, hk2]⟩

theorem runSteps_all_ok (exec : Executor Config σ) (wrap : Error → Error) :
    ∀ (calls : List (Call Config)) (st : σ),
      (∀ ev ∈ (runSteps exec wrap calls st).trace, ev.result.err = none) →
      (runSteps exec wrap calls st).ret = Outcome.ok ∧
        (runSteps exec wrap calls st).trace.map Event.call = calls := by
  intro calls
  induction calls with
  | nil => intro st _; simp [runSteps]
  | cons call rest ih =>
    intro st hok
    cases hr : (exec st call).1.err with
    | some err =>
      simp only [runSteps, hr, List.mem_singleton, forall_eq] at hok
      exact absurd hok (by simp)
    | none =>
      simp only [runSteps, hr, List.mem_cons] at hok
      have h := ih (exec st call).2 (fun ev hev => hok ev (Or.inr hev))
      simp [runSteps, hr, h.1, h.2]

theorem totalSlots_nonneg (rs : List (Int × Int)) (h : ∀ q ∈ rs, q.1 ≤ q.2) :
    0 ≤ totalSlots rs := by
  induction rs with
  | nil => simp [totalSlots]
  | cons q qs ih =>
    have h1 := h q (by simp)
    have h2 := ih (fun r hr => h r (by simp [hr]))
    simp only [totalSlots, List.map_cons, List.sum_cons, rangeSize] at h2 ⊢
    omega

theorem specPlan_total (rs : List (Int × Int)) (h : ∀ q ∈ rs, q.1 ≤ q.2) :
    ∀ need : Int, 0 ≤ need → totalSlots (specPlan rs need) = min need (totalSlots rs) := by
  induction rs with
  | nil => intro need hn; simp [specPlan, totalSlots, hn]
  | cons q qs ih =>
    intro need hn
    obtain ⟨a, e⟩ := q
    have h1 : a ≤ e := h (a, e) (by simp)
    have hq : ∀ r ∈ qs, r.1 ≤ r.2 := fun r hr => h r (by simp [hr])
    have h2 := totalSlots_nonneg qs hq
    by_cases h0 : need ≤ 0
    · have : need = 0 := by omega
      subst this
      simp only [specPlan, le_refl, if_true]
      simp only [totalSlots, List.map_cons, List.sum_cons, rangeSize, List.map_nil,
        List.sum_nil] at h2 ⊢
      omega
    · by_cases hsz : e - a + 1 ≤ need
      · have h3 := ih hq (need - (e - a + 1)) (by omega)
        simp only [specPlan, h0, hsz, if_true, if_false]
        simp only [totalSlots, List.map_cons, List.sum_cons, rangeSize] at h2 h3 ⊢
        omega
      · simp only [specPlan, h0, hsz, if_false]
        simp only [totalSlots, List.map_cons, List.sum_cons, rangeSize, List.map_nil,
          List.sum_nil] at h2 ⊢
        omega

theorem specPlan_inside (rs : List (Int × Int)) (h : ∀ q ∈ rs, q.1 ≤ q.2) :
    ∀ need : Int, Inside (specPlan rs need) rs := by
  induction rs with
  | nil => intro need; simp [specPlan, Inside]
  | cons q qs ih =>
    intro need
    obtain ⟨a, e⟩ := q
    have h1 : a ≤ e := h (a, e) (by simp)
    have hq : ∀ r ∈ qs, r.1 ≤ r.2 := fun r hr => h r (by simp [hr])
    by_cases h0 : need ≤ 0
    · simp [specPlan, h0, Inside]
    · by_cases hsz : e - a + 1 ≤ need
      · simp only [specPlan, h0, hsz, if_true, if_false, Inside]
        exact ⟨trivial, h1, le_refl _, ih hq _⟩
      · simp only [specPlan, h0, hsz, if_false, Inside]
        refine ⟨trivial, ?_, ?_, trivial⟩ <;> omega

theorem specPlan_bounded (rs : List (Int × Int)) (h : ∀ q ∈ rs, q.1 ≤ q.2) :
    ∀ need : Int, Bounded need (specPlan rs need) := by
  induction rs with
  | nil => intro need; simp [specPlan, Bounded]
  | cons q qs ih =>
    intro need
    obtain ⟨a, e⟩ := q
    have h1 : a ≤ e := h (a, e) (by simp)
    have hq : ∀ r ∈ qs, r.1 ≤ r.2 := fun r hr => h r (by simp [hr])
    by_cases h0 : need ≤ 0
    · simp [specPlan, h0, Bounded]
    · by_cases hsz : e - a + 1 ≤ need
      · simp only [specPlan, h0, hsz, if_true, if_false, Bounded, rangeSize]
        exact ⟨by omega, trivial, ih hq _⟩
      · simp only [specPlan, h0, hsz, if_false, Bounded, rangeSize]
        refine ⟨?_, ?_, trivial⟩ <;> omega

theorem inside_take {p q : List (Int × Int)} (h : Inside p q) (k : Nat) :
    Inside (p.take k) q := by
  induction p generalizing q k with
  | nil => simp [Inside]
  | cons r rs ih =>
    cases k with
    | zero => simp [Inside]
    | succ k =>
      cases q with
      | nil => exact h.elim
      | cons a qs =>
        simp only [List.take_succ_cons, Inside] at h ⊢
        exact ⟨h.1, h.2.1, h.2.2.1, ih h.2.2.2 k⟩

theorem bounded_take {p : List (Int × Int)} {need : Int} (h : Bounded need p) (k : Nat) :
    Bounded need (p.take k) := by
  induction p generalizing need k with
  | nil => simp [Bounded]
  | cons r rs ih =>
    cases k with
    | zero => simp [Bounded]
    | succ k =>
      simp only [List.take_succ_cons, Bounded] at h ⊢
      exact ⟨h.1, h.2.1, ih h.2.2 k⟩

theorem inside_length_le {p q : List (Int × Int)} (h : Inside p q) : p.length ≤ q.length := by
  induction p generalizing q with
  | nil => simp
  | cons r rs ih =>
    cases q with
    | nil => exact h.elim
    | cons a qs =>
      simp only [Inside] at h
      simpa using ih h.2.2.2

theorem inside_get {p q : List (Int × Int)} (h : Inside p q) :
    ∀ (k : Nat) (r : Int × Int), p.get? k = some r →
      ∃ a, q.get? k = some a ∧ r.1 = a.1 ∧ r.1 ≤ r.2 ∧ r.2 ≤ a.2 := by
  induction p generalizing q with
  | nil => intro k r hr; simp at hr
  | cons b rs ih =>
    intro k r hr
    cases q with
    | nil => exact h.elim
    | cons a qs =>
      simp only [Inside] at h
      cases k with
      | zero =>
        simp only [List.get?_cons_zero, Option.some.injEq] at hr
        subst hr
        exact ⟨a, by simp, h.1, h.2.1, h.2.2.1⟩
      | succ k =>
        simp only [List.get?_cons_succ] at hr ⊢
        exact ih h.2.2.2 k r hr

theorem inside_mem {p q : List (Int × Int)} (h : Inside p q) :
    ∀ r ∈ p, ∃ a ∈ q, r.1 = a.1 ∧ r.1 ≤ r.2 ∧ r.2 ≤ a.2 := by
  induction p generalizing q with
  | nil => intro r hr; simp at hr
  | cons b rs ih =>
    intro r hr
    cases q with
    | nil => exact h.elim
    | cons a qs =>
      simp only [Inside] at h
      rcases List.mem_cons.1 hr with rfl | hr
      · exact ⟨a, by simp, h.1, h.2.1, h.2.2.1⟩
      · obtain ⟨a2, ha2, hx⟩ := ih h.2.2.2 r hr
        exact ⟨a2, by simp [ha2], hx⟩

theorem inside_pairwise {p q : List (Int × Int)} (h : Inside p q)
    (hq : q.Pairwise rangesApart) : p.Pairwise rangesApart := by
  induction p generalizing q with
  | nil => simp
  | cons b rs ih =>
    cases q with
    | nil => exact h.elim
    | cons a qs =>
      simp only [Inside] at h
      rw [List.pairwise_cons] at hq ⊢
      refine ⟨?_, ih h.2.2.2 hq.2⟩
      intro r hr
      obtain ⟨a2, ha2, hx⟩ := inside_mem h.2.2.2 r hr
      have := hq.1 a2 ha2
      unfold rangesApart at this ⊢
      omega

theorem inside_covers_eq {p q : List (Int × Int)} (h : Inside p q) (x : Int) :
    covers q x = covers p x + covers (remainder q p) x := by
  induction q generalizing p with
  | nil =>
    cases p with
    | nil => simp [covers, remainder]
    | cons b rs => exact h.elim
  | cons a qs ih =>
    cases p with
    | nil => simp [covers, remainder]
    | cons b rs =>
      simp only [Inside] at h
      have h2 := ih h.2.2.2
      simp only [covers, remainder, List.countP_cons] at h2 ⊢
      rw [h2]
      obtain ⟨h3, h4, h5, _⟩ := h
      simp only [decide_eq_true_eq]
      split_ifs <;> omega

theorem covers_le_one (q : List (Int × Int)) (hq : q.Pairwise rangesApart) (x : Int) :
    covers q x ≤ 1 := by
  induction q with
  | nil => simp [covers]
  | cons a qs ih =>
    rw [List.pairwise_cons] at hq
    have h2 := ih hq.2
    simp only [covers, List.countP_cons] at h2 ⊢
    by_cases c1 : a.1 ≤ x ∧ x ≤ a.2
    · have hz : List.countP (fun r => decide (r.1 ≤ x ∧ x ≤ r.2)) qs = 0 := by
        rw [List.countP_eq_zero]
        intro r hr
        have := hq.1 r hr
        unfold rangesApart at this
        simp only [decide_eq_true_eq]
        omega
      rw [hz, if_pos (decide_eq_true c1)]
    · rw [if_neg (by simpa using c1)]
      exact h2

theorem bounded_get {p : List (Int × Int)} :
    ∀ {need : Int}, Bounded need p → ∀ (k : Nat) (r : Int × Int), p.get? k = some r →
      r.1 ≤ r.2 ∧ 1 ≤ rangeSize r ∧ rangeSize r ≤ needAfter need (p.take k) ∧
        0 ≤ needAfter need (p.take (k + 1)) := by
  induction p with
  | nil => intro need _ k r hr; simp at hr
  | cons b rs ih =>
    intro need h k r hr
    simp only [Bounded] at h
    cases k with
    | zero =>
      simp only [List.get?_cons_zero, Option.some.injEq] at hr
      subst hr
      simp only [rangeSize, needAfter, List.take_zero, List.foldl_nil, List.take_succ_cons,
        List.foldl_cons] at h ⊢
      omega
    | succ k =>
      simp only [List.get?_cons_succ] at hr
      have := ih h.2.2 k r hr
      simpa [needAfter, rangeSize] using this

/-- Whatever the executor answers, when no operation overflows the ranges
issued are an initial part of the plan and every call issued is the reshard
command of its range. -/
theorem reshard_issued_prefix (tbl : Char → Bool) (exec : Executor Config σ) (c : Config)
    (pod : Pod) (nodes : List (List RedisNode)) (src dst n : Int) (st : σ) (s d : RedisNode)
    (hs : firstNode nodes src = some s) (hd : firstNode nodes dst = some d)
    (hl : s.SlotStart.length ≤ s.SlotEnd.length)
    (hfit : ∀ q ∈ slotRanges s, RangeFits q)
    (hg : n + needGrowth (slotRanges s) < 9223372036854775808) :
    ∃ k, issuedRanges (reshard tbl exec c pod nodes src dst n st).trace
          = (specPlan (slotRanges s) n).take k ∧
      (reshard tbl exec c pod nodes src dst n st).trace.map Event.call
          = ((specPlan (slotRanges s) n).take k).map (reshardCall c pod s d) := by
  rw [reshard_eq_runSteps tbl exec c pod nodes src dst n st s d hs hd hl hfit hg]
  obtain ⟨k, _, hk⟩ := runSteps_calls exec (reshardError tbl s d n)
    ((specPlan (slotRanges s) n).map (reshardCall c pod s d)) st
  rw [← List.map_take] at hk
  exact ⟨k, issuedRanges_eq c pod s d _ _ hk, hk⟩

theorem dropWhile_head_not {α : Type} (p : α → Bool) (l : List α) (a : α)
    (h : (l.dropWhile p).head? = some a) : p a = false := by
  have := List.head?_dropWhile_not p l
  rw [h] at this
  exact this

/-- What `TrimSpace` returns is the argument without a leading and a trailing
run of white space, and neither starts nor ends with white space. -/
theorem TrimSpace_spec (s : String) : Trimmed s (TrimSpace s) := by
  unfold Trimmed
  have e1 := List.takeWhile_append_dropWhile IsSpace s.data
  have e2 := List.takeWhile_append_dropWhile IsSpace (s.data.dropWhile IsSpace).reverse
  have e3 : s.data.dropWhile IsSpace
      = ((s.data.dropWhile IsSpace).reverse.dropWhile IsSpace).reverse
        ++ ((s.data.dropWhile IsSpace).reverse.takeWhile IsSpace).reverse := by
    rw [← List.reverse_append, e2, List.reverse_reverse]
  refine ⟨s.data.takeWhile IsSpace,
    ((s.data.dropWhile IsSpace).reverse.takeWhile IsSpace).reverse, ?_, ?_, ?_, ?_, ?_⟩
  · simp only [TrimSpace, List.append_assoc]
    rw [← e3, e1]
  · intro ch hch; exact List.mem_takeWhile_imp hch
  · intro ch hch; exact List.mem_takeWhile_imp (List.mem_reverse.1 hch)
  · intro ch hch
    simp only [TrimSpace] at hch
    apply dropWhile_head_not IsSpace s.data ch
    rw [e3, List.head?_append, hch]
    rfl
  · intro ch hch
    simp only [TrimSpace, List.getLast?_reverse] at hch
    exact dropWhile_head_not IsSpace _ ch hch

theorem reshardLoop_inputs (tbl : Char → Bool) (exec : Executor Config σ) (c : Config)
    (pod : Pod) (s d : RedisNode) (n : Int) :
    ∀ (starts : List Int) (i : Nat) (need : Int) (st : σ),
      ∀ ev ∈ (reshardLoop tbl exec c pod s d n starts i need st).trace,
        ev.call.input = none := by
  intro starts
  induction starts with
  | nil => intro i need st ev hev; simp [reshardLoop] at hev
  | cons a rest ih =>
    intro i need st ev hev
    by_cases hn : need ≤ 0
    · simp [reshardLoop, hn] at hev
    · cases hg : s.SlotEnd.get? i with
      | none =>
        simp only [reshardLoop, hn, hg, if_false] at hev
        simp at hev
      | some e =>
        simp only [reshardLoop, hn, hg, if_false] at hev
        generalize (if wrap64 (wrap64 (e - a) + 1) > need
          then wrap64 (wrap64 (a + need) - 1) else e) = stop at hev
        cases hr : (exec st ⟨pod, none, Cmd.ReshardCmd c s.IP s.ID d.IP d.ID a stop⟩).1.err with
        | some err =>
          simp only [hr, List.mem_singleton] at hev
          rw [hev]
        | none =>
          simp only [hr, List.mem_cons] at hev
          rcases hev with h | h
          · rw [h]
          · exact ih _ _ _ ev h

theorem reshard_inputs (tbl : Char → Bool) (exec : Executor Config σ) (c : Config)
    (pod : Pod) (nodes : List (List RedisNode)) (src dst n : Int) (st : σ) :
    ∀ ev ∈ (reshard tbl exec c pod nodes src dst n st).trace, ev.call.input = none := by
  intro ev hev
  unfold reshard at hev
  split at hev
  · simp at hev
  · simp at hev
  · split at hev
    · simp at hev
    · simp at hev
    · exact reshardLoop_inputs _ _ _ _ _ _ _ _ _ _ _ ev hev

/-- The end of the range a step names lies between the start and the end of
the source range, when these are 64-bit ints with start ≤ end and the need is
positive: the shortened end `start + need - 1` is computed only when the size
of the range did not overflow. -/
theorem reshard_stop_inside (a e need : Int) (ha : FitsInt a) (he : FitsInt e)
    (hae : a ≤ e) (hn : 0 < need) :
    a ≤ (if wrap64 (wrap64 (e - a) + 1) > need
          then wrap64 (wrap64 (a + need) - 1) else e) ∧
      (if wrap64 (wrap64 (e - a) + 1) > need
          then wrap64 (wrap64 (a + need) - 1) else e) ≤ e := by
  unfold FitsInt at ha he
  split_ifs with h
  · unfold wrap64 at h ⊢
    omega
  · exact ⟨hae, le_refl _⟩

/-- Whatever the need and the answers of the executor, the ranges the loop
issues follow the source ranges position by position. -/
theorem reshardLoop_inside (tbl : Char → Bool) (exec : Executor Config σ) (c : Config)
    (pod : Pod) (s d : RedisNode) (n : Int) :
    ∀ (starts ends pre : List Int) (need : Int) (st : σ),
      s.SlotEnd = pre ++ ends →
      (∀ q ∈ starts.zip ends, FitsInt q.1 ∧ FitsInt q.2 ∧ q.1 ≤ q.2) →
      Inside (issuedRanges (reshardLoop tbl exec c pod s d n starts pre.length need st).trace)
        (starts.zip ends) := by
  intro starts
  induction starts with
  | nil => intro ends pre need st _ _; simp [reshardLoop, issuedRanges, Inside]
  | cons a rest ih =>
    intro ends pre need st hs hq
    by_cases hn : need ≤ 0
    · simp [reshardLoop, hn, issuedRanges, Inside]
    · cases ends with
      | nil =>
        have hget : s.SlotEnd.get? pre.length = none := by
          rw [hs, List.get?_eq_getElem?]; simp
        simp only [reshardLoop, hn, hget, if_false]
        simp [issuedRanges, Inside]
      | cons e ends =>
        have hget : s.SlotEnd.get? pre.length = some e := by
          rw [hs, List.get?_eq_getElem?, List.getElem?_append_right (le_refl _)]; simp
        have hs2 : s.SlotEnd = (pre ++ [e]) ++ ends := by simp [hs]
        have hb := hq (a, e) (by simp)
        have hq2 : ∀ q ∈ rest.zip ends, FitsInt q.1 ∧ FitsInt q.2 ∧ q.1 ≤ q.2 :=
          fun q hq1 => hq q (by simp [hq1])
        have ih2 := ih ends (pre ++ [e])
        simp only [List.length_append, List.length_singleton] at ih2
        have hst := reshard_stop_inside a e need hb.1 hb.2.1 hb.2.2 (by omega)
        simp only [reshardLoop, hn, hget, if_false, List.zip_cons_cons]
        generalize (if wrap64 (wrap64 (e - a) + 1) > need
          then wrap64 (wrap64 (a + need) - 1) else e) = stop at hst ⊢
        cases hr : (exec st ⟨pod, none, Cmd.ReshardCmd c s.IP s.ID d.IP d.ID a stop⟩).1.err with
        | some err =>
          simp only [issuedRanges, List.filterMap_cons, Cmd.range?, List.filterMap_nil, Inside]
          exact ⟨trivial, hst.1, hst.2, trivial⟩
        | none =>
          simp only [issuedRanges, List.filterMap_cons, Cmd.range?, Inside]
          exact ⟨trivial, hst.1, hst.2, ih2 _ _ hs2 hq2⟩

/-- Every call the loop issues is the reshard command of the range it names. -/
theorem reshardLoop_calls (tbl : Char → Bool) (exec : Executor Config σ) (c : Config)
    (pod : Pod) (s d : RedisNode) (n : Int) :
    ∀ (starts : List Int) (i : Nat) (need : Int) (st : σ),
      (reshardLoop tbl exec c pod s d n starts i need st).trace.map Event.call
        = (issuedRanges (reshardLoop tbl exec c pod s d n starts i need st).trace).map
            (reshardCall c pod s d) := by
  intro starts
  induction starts with
  | nil => intro i need st; simp [reshardLoop, issuedRanges]
  | cons a rest ih =>
    intro i need st
    by_cases hn : need ≤ 0
    · simp [reshardLoop, hn, issuedRanges]
    · cases hg : s.SlotEnd.get? i with
      | none =>
        simp only [reshardLoop, hn, hg, if_false]
        simp [issuedRanges]
      | some e =>
        simp only [reshardLoop, hn, hg, if_false]
        generalize (if wrap64 (wrap64 (e - a) + 1) > need
          then wrap64 (wrap64 (a + need) - 1) else e) = stop
        cases hr : (exec st ⟨pod, none, Cmd.ReshardCmd c s.IP s.ID d.IP d.ID a stop⟩).1.err with
        | some err =>
          simp [issuedRanges, Cmd.range?, reshardCall]
        | none =>
          have h := ih (i + 1) (wrap64 (need - wrap64 (wrap64 (stop - a) + 1)))
            (exec st ⟨pod, none, Cmd.ReshardCmd c s.IP s.ID d.IP d.ID a stop⟩).2
          simp only [issuedRanges] at h
          simp only [issuedRanges, List.map_cons, List.filterMap_cons, Cmd.range?, h]
          rfl

/-- With both nodes present, the ranges `reshard` issues follow the source
ranges position by position and every call is the reshard command of its
range, whatever the need and the answers of the executor. -/
theorem reshard_inside (tbl : Char → Bool) (exec : Executor Config σ) (c : Config)
    (pod : Pod) (nodes : List (List RedisNode)) (src dst n : Int) (st : σ) (s d : RedisNode)
    (hs : firstNode nodes src = some s) (hd : firstNode nodes dst = some d)
    (hq : ∀ q ∈ slotRanges s, FitsInt q.1 ∧ FitsInt q.2 ∧ q.1 ≤ q.2) :
    Inside (issuedRanges (reshard tbl exec c pod nodes src dst n st).trace) (slotRanges s) ∧
      (reshard tbl exec c pod nodes src dst n st).trace.map Event.call
        = (issuedRanges (reshard tbl exec c pod nodes src dst n st).trace).map
            (reshardCall c pod s d) := by
  obtain ⟨ss, hs1⟩ := firstNode_some nodes src s hs
  obtain ⟨ds, hd1⟩ := firstNode_some nodes dst d hd
  simp only [reshard, hs1, hd1]
  exact ⟨reshardLoop_inside tbl exec c pod s d n s.SlotStart s.SlotEnd [] n st (by simp) hq,
    reshardLoop_calls tbl exec c pod s d n s.SlotStart 0 n st⟩

theorem escapedRune_plain (tbl : Char → Bool) (ch : Char)
    (h : IsPrint tbl ch = true ∧ ch ≠ dquote ∧ ch ≠ bslash) : escapedRune tbl ch = [ch] := by
  simp [escapedRune, h.1, h.2.1, h.2.2]

theorem flatMap_escapedRune_plain (tbl : Char → Bool) (l : List Char)
    (h : ∀ ch ∈ l, IsPrint tbl ch = true ∧ ch ≠ dquote ∧ ch ≠ bslash) :
    l.flatMap (escapedRune tbl) = l := by
  induction l with
  | nil => rfl
  | cons a rest ih =>
    rw [List.flatMap_cons, escapedRune_plain tbl a (h a (by simp)),
      ih (fun ch hch => h ch (by simp [hch]))]
    rfl

end Lemmas

/-! ## The reshard algorithm -/

section Reshard

variable {Config σ : Type}

/-- C1, with the bound the 64-bit arithmetic needs: when every range of the
source has start ≤ end and is computed without overflow (start, end and
`end - start + 1` are 64-bit ints), the requested count `N` is a 64-bit int
that is not negative, and every command `reshard` issues succeeds, then every
command issued is a reshard command, the sizes of the ranges they name sum to
`min N (total slots of the source)`, and `reshard` returns no error. -/
theorem reshard_migrates_min (tbl : Char → Bool) (exec : Executor Config σ) (c : Config)
    (pod : Pod) (nodes : List (List RedisNode)) (src dst N : Int) (st : σ) (s d : RedisNode)
    (hs : firstNode nodes src = some s) (hd : firstNode nodes dst = some d)
    (hl : s.SlotStart.length ≤ s.SlotEnd.length)
    (hv : ∀ q ∈ slotRanges s, q.1 ≤ q.2) (hfit : ∀ q ∈ slotRanges s, RangeFits q)
    (hN : 0 ≤ N) (hN2 : FitsInt N)
    (hok : ∀ ev ∈ (reshard tbl exec c pod nodes src dst N st).trace, ev.result.err = none) :
    totalSlots (issuedRanges (reshard tbl exec c pod nodes src dst N st).trace)
        = min N (totalSlots (slotRanges s)) ∧
      (reshard tbl exec c pod nodes src dst N st).trace.map Event.call
        = (issuedRanges (reshard tbl exec c pod nodes src dst N st).trace).map
            (reshardCall c pod s d) ∧
      (reshard tbl exec c pod nodes src dst N st).ret = Outcome.ok := by
  have hg : N + needGrowth (slotRanges s) < 9223372036854775808 := by
    rw [needGrowth_zero _ hv]
    have := hN2.2
    omega
  rw [reshard_eq_runSteps tbl exec c pod nodes src dst N st s d hs hd hl hfit hg] at hok ⊢
  obtain ⟨h1, h2⟩ := runSteps_all_ok exec (reshardError tbl s d N)
    ((specPlan (slotRanges s) N).map (reshardCall c pod s d)) st hok
  have h3 := issuedRanges_eq c pod s d _ _ h2
  rw [h3]
  exact ⟨specPlan_total _ hv N hN, h2, h1⟩

/-- Witness of C1: a source owning `[0,49]` asked for 100 slots gives 50. -/
theorem reshard_migrates_min_witness :
    totalSlots (issuedRanges
        (reshard noTable okExec () pod0 [[srcFifty], [dstNode]] 0 1 100 ()).trace) = 50 ∧
      (reshard noTable okExec () pod0 [[srcFifty], [dstNode]] 0 1 100 ()).ret = Outcome.ok := by
  have h := reshard_migrates_min noTable okExec () pod0 [[srcFifty], [dstNode]] 0 1 100 ()
    srcFifty dstNode rfl rfl (by decide) (by decide) (by decide) (by decide) (by decide)
    (by decide)
  refine ⟨?_, h.2.2⟩
  rw [h.1]
  decide

/-- Counterexample to C1 as stated: the source range `[0, 2^63 - 1]` has
start ≤ end, the request is 5 and the command succeeds, but `end - start + 1`
overflows to a negative value, so the whole range is issued: `2^63` slots, not
`min 5 total = 5`. -/
theorem reshard_overflow_migrates_too_much :
    (∀ q ∈ slotRanges srcHuge, q.1 ≤ q.2) ∧
    (∀ ev ∈ (reshard noTable okExec () pod0 [[srcHuge], [dstNode]] 0 1 5 ()).trace,
      ev.result.err = none) ∧
    issuedRanges (reshard noTable okExec () pod0 [[srcHuge], [dstNode]] 0 1 5 ()).trace
      = [(0, 9223372036854775807)] ∧
    min 5 (totalSlots (slotRanges srcHuge)) = 5 ∧
    totalSlots (issuedRanges
      (reshard noTable okExec () pod0 [[srcHuge], [dstNode]] 0 1 5 ()).trace)
      = 9223372036854775808 ∧
    (reshard noTable okExec () pod0 [[srcHuge], [dstNode]] 0 1 5 ()).ret = Outcome.ok := by
  refine ⟨by decide, by decide, by decide, by decide, by decide, by decide⟩

/-- C3, with the bound the 64-bit arithmetic needs: when every range of the
source is computed without overflow, the request `N` plus all the need can
grow by (ranges with end < start) stays below `2^63`, and every command
`reshard` issues succeeds, the calls issued are the commands for the plan of
the greedy algorithm of the specification, in order, so the ranges they name
are that plan; a request `N ≤ 0` issues nothing; and for the source `[0,99]`,
`[200,249]` and `N = 120` the ranges issued are `[0,99]` then `[200,219]`. -/
theorem reshard_refines_specPlan (tbl : Char → Bool) (exec : Executor Config σ) (c : Config)
    (pod : Pod) (nodes : List (List RedisNode)) (src dst N : Int) (st : σ) (s d : RedisNode)
    (hs : firstNode nodes src = some s) (hd : firstNode nodes dst = some d)
    (hl : s.SlotStart.length ≤ s.SlotEnd.length)
    (hfit : ∀ q ∈ slotRanges s, RangeFits q)
    (hg : N + needGrowth (slotRanges s) < 9223372036854775808)
    (hok : ∀ ev ∈ (reshard tbl exec c pod nodes src dst N st).trace, ev.result.err = none) :
    (reshard tbl exec c pod nodes src dst N st).trace.map Event.call
        = (specPlan (slotRanges s) N).map (reshardCall c pod s d) ∧
      issuedRanges (reshard tbl exec c pod nodes src dst N st).trace
        = specPlan (slotRanges s) N ∧
      (N ≤ 0 → (reshard tbl exec c pod nodes src dst N st).trace = []) ∧
      (slotRanges s = [(0, 99), (200, 249)] → N = 120 →
        issuedRanges (reshard tbl exec c pod nodes src dst N st).trace
          = [(0, 99), (200, 219)]) := by
  rw [reshard_eq_runSteps tbl exec c pod nodes src dst N st s d hs hd hl hfit hg] at hok ⊢
  obtain ⟨_, h2⟩ := runSteps_all_ok exec (reshardError tbl s d N)
    ((specPlan (slotRanges s) N).map (reshardCall c pod s d)) st hok
  have h3 := issuedRanges_eq c pod s d _ _ h2
  refine ⟨h2, h3, ?_, ?_⟩
  · intro h0
    have : specPlan (slotRanges s) N = [] := by
      cases slotRanges s with
      | nil => rfl
      | cons q qs => simp [specPlan, h0]
    simp [this, runSteps]
  · intro hr hn
    rw [h3, hr, hn]
    decide

/-- Witness of C3: the scenario of the specification, run on the code. -/
theorem reshard_refines_specPlan_witness :
    issuedRanges (reshard noTable okExec () pod0 [[srcTwo], [dstNode]] 0 1 120 ()).trace
      = [(0, 99), (200, 219)] :=
  (reshard_refines_specPlan noTable okExec () pod0 [[srcTwo], [dstNode]] 0 1 120 ()
    srcTwo dstNode rfl rfl (by decide) (by decide) (by decide) (by decide)).2.2.2 rfl rfl

/-- Counterexample to C3 as stated: for the source ranges `[5,3]`, `[10,20]` and
`N = 2^63 - 1`, every command succeeding, the need after `[5,3]` is
`N - (-1)`, which overflows to `-2^63`, and the loop stops: the code issues
`[5,3]` only, the plan of the specification is `[5,3]`, `[10,20]`. -/
theorem reshard_overflow_leaves_plan :
    (∀ ev ∈ (reshard noTable okExec () pod0 [[srcWrap], [dstNode]] 0 1 9223372036854775807
      ()).trace, ev.result.err = none) ∧
    issuedRanges (reshard noTable okExec () pod0 [[srcWrap], [dstNode]] 0 1
      9223372036854775807 ()).trace = [(5, 3)] ∧
    specPlan (slotRanges srcWrap) 9223372036854775807 = [(5, 3), (10, 20)] := by
  refine ⟨by decide, by decide, by decide⟩

/-- C2: when the ranges of the source are ranges of 64-bit ints with
start ≤ end and are pairwise disjoint, then whatever the request and whatever
the executor answers the ranges `reshard` issues are pairwise disjoint; the
k-th of them starts at the start of the k-th source range, is not empty and
ends inside it; and every slot lies in as many source ranges as in issued
ranges and remainder ranges together, which is at most one: the issued ranges
and the remainder partition the slots of the source. -/
theorem reshard_partitions (tbl : Char → Bool) (exec : Executor Config σ) (c : Config)
    (pod : Pod) (nodes : List (List RedisNode)) (src dst N : Int) (st : σ) (s d : RedisNode)
    (hs : firstNode nodes src = some s) (hd : firstNode nodes dst = some d)
    (hfit : ∀ q ∈ slotRanges s, FitsInt q.1 ∧ FitsInt q.2)
    (hv : ∀ q ∈ slotRanges s, q.1 ≤ q.2) (hdis : (slotRanges s).Pairwise rangesApart) :
    (issuedRanges (reshard tbl exec c pod nodes src dst N st).trace).Pairwise rangesApart ∧
    (∀ (k : Nat) (r : Int × Int),
      (issuedRanges (reshard tbl exec c pod nodes src dst N st).trace).get? k = some r →
      ∃ q, (slotRanges s).get? k = some q ∧ r.1 = q.1 ∧ r.1 ≤ r.2 ∧ r.2 ≤ q.2) ∧
    (∀ x : Int,
      covers (slotRanges s) x
        = covers (issuedRanges (reshard tbl exec c pod nodes src dst N st).trace) x
          + covers (remainder (slotRanges s)
              (issuedRanges (reshard tbl exec c pod nodes src dst N st).trace)) x ∧
      covers (issuedRanges (reshard tbl exec c pod nodes src dst N st).trace) x
          + covers (remainder (slotRanges s)
              (issuedRanges (reshard tbl exec c pod nodes src dst N st).trace)) x ≤ 1) := by
  have hin := (reshard_inside tbl exec c pod nodes src dst N st s d hs hd
    (fun q hq => ⟨(hfit q hq).1, (hfit q hq).2, hv q hq⟩)).1
  refine ⟨inside_pairwise hin hdis, inside_get hin, ?_⟩
  intro x
  have h1 := inside_covers_eq hin x
  have h2 := covers_le_one _ hdis x
  exact ⟨h1, by omega⟩

/-- Witness of C2: source `[0,99]`, `[200,249]`, request 120; the remainder is
the empty rest of the first range and `[220,249]`. -/
theorem reshard_partitions_witness :
    (issuedRanges (reshard noTable okExec () pod0 [[srcTwo], [dstNode]] 0 1 120
        ()).trace).Pairwise rangesApart ∧
    remainder (slotRanges srcTwo)
      (issuedRanges (reshard noTable okExec () pod0 [[srcTwo], [dstNode]] 0 1 120 ()).trace)
      = [(100, 99), (220, 249)] ∧
    covers (slotRanges srcTwo) 219
      = covers (issuedRanges
          (reshard noTable okExec () pod0 [[srcTwo], [dstNode]] 0 1 120 ()).trace) 219
        + covers (remainder (slotRanges srcTwo) (issuedRanges
          (reshard noTable okExec () pod0 [[srcTwo], [dstNode]] 0 1 120 ()).trace)) 219 := by
  have h := reshard_partitions noTable okExec () pod0 [[srcTwo], [dstNode]] 0 1 120 ()
    srcTwo dstNode rfl rfl (by decide) (by decide) (by decide)
  exact ⟨h.1, by decide, (h.2.2 219).1⟩

/-- C10, with the bound the 64-bit arithmetic needs: when every range of the
source has start ≤ end and is computed without overflow and the request is a
64-bit int, then whatever the executor answers each command `reshard` issues is
a reshard command naming a range with start ≤ end, of size at least 1 and at
most the need left before that step; the need left after the step is not
negative; and there are at most as many commands as source ranges. Without
start ≤ end this fails: for the source range `[5,3]` and a request of 1 the
command names `[5,3]` and the need grows from 1 to 2. -/
theorem reshard_steps_bounded :
    (∀ (Config σ : Type) (tbl : Char → Bool) (exec : Executor Config σ) (c : Config)
      (pod : Pod) (nodes : List (List RedisNode)) (src dst N : Int) (st : σ)
      (s d : RedisNode),
      firstNode nodes src = some s → firstNode nodes dst = some d →
      s.SlotStart.length ≤ s.SlotEnd.length →
      (∀ q ∈ slotRanges s, q.1 ≤ q.2) → (∀ q ∈ slotRanges s, RangeFits q) → FitsInt N →
      (∀ (k : Nat) (r : Int × Int),
        (issuedRanges (reshard tbl exec c pod nodes src dst N st).trace).get? k = some r →
        r.1 ≤ r.2 ∧ 1 ≤ rangeSize r ∧
        rangeSize r ≤ needAfter N
          ((issuedRanges (reshard tbl exec c pod nodes src dst N st).trace).take k) ∧
        0 ≤ needAfter N
          ((issuedRanges (reshard tbl exec c pod nodes src dst N st).trace).take (k + 1))) ∧
      (reshard tbl exec c pod nodes src dst N st).trace.map Event.call
        = (issuedRanges (reshard tbl exec c pod nodes src dst N st).trace).map
            (reshardCall c pod s d) ∧
      (reshard tbl exec c pod nodes src dst N st).trace.length ≤ (slotRanges s).length) ∧
    (issuedRanges (reshard noTable okExec () pod0 [[srcBad], [dstNode]] 0 1 1 ()).trace
        = [(5, 3)] ∧
      needAfter 1
        (issuedRanges (reshard noTable okExec () pod0 [[srcBad], [dstNode]] 0 1 1 ()).trace)
        = 2) := by
  refine ⟨?_, by decide, by decide⟩
  intro Config σ tbl exec c pod nodes src dst N st s d hs hd hl hv hfit hN
  have hg : N + needGrowth (slotRanges s) < 9223372036854775808 := by
    rw [needGrowth_zero _ hv]
    have := hN.2
    omega
  obtain ⟨k, hk, hc⟩ :=
    reshard_issued_prefix tbl exec c pod nodes src dst N st s d hs hd hl hfit hg
  rw [hk]
  have hin : Inside ((specPlan (slotRanges s) N).take k) (slotRanges s) :=
    inside_take (specPlan_inside _ hv N) k
  have hb : Bounded N ((specPlan (slotRanges s) N).take k) :=
    bounded_take (specPlan_bounded _ hv N) k
  refine ⟨bounded_get hb, hc, ?_⟩
  have := congrArg List.length hc
  simp only [List.length_map] at this
  rw [this]
  exact inside_length_le hin

/-- Witness of C10: source `[0,99]`, `[200,249]`, request 120; the second
command names 20 slots, the need left before it. -/
theorem reshard_steps_bounded_witness :
    rangeSize (200, 219) ≤ needAfter 120
      ((issuedRanges (reshard noTable okExec () pod0 [[srcTwo], [dstNode]] 0 1 120
        ()).trace).take 1) ∧
    needAfter 120 ((issuedRanges (reshard noTable okExec () pod0 [[srcTwo], [dstNode]] 0 1 120
        ()).trace).take 1) = 20 := by
  have h := (reshard_steps_bounded.1 Unit Unit noTable okExec () pod0 [[srcTwo], [dstNode]]
    0 1 120 () srcTwo dstNode rfl rfl (by decide) (by decide) (by decide) (by decide)).1 1
    (200, 219) (by decide)
  exact ⟨h.2.2.1, by decide⟩

/-- Counterexample to C10 as stated: the source range `[0, 2^63 - 1]` has
start ≤ end and the request is 5, but `end - start + 1` overflows to a negative
value, so the command names the whole range, whose size `2^63` exceeds the need
of 5 left before the step. -/
theorem reshard_overflow_exceeds_need :
    (∀ q ∈ slotRanges srcHuge, q.1 ≤ q.2) ∧
    (issuedRanges (reshard noTable okExec () pod0 [[srcHuge], [dstNode]] 0 1 5 ()).trace).get?
      0 = some (0, 9223372036854775807) ∧
    needAfter 5
      ((issuedRanges (reshard noTable okExec () pod0 [[srcHuge], [dstNode]] 0 1 5
        ()).trace).take 0) = 5 ∧
    ¬ (rangeSize (0, 9223372036854775807) ≤ 5) := by
  refine ⟨by decide, by decide, by decide, by decide⟩

end Reshard

/-! ## The single-command operations -/

section Single

variable {Config σ : Type}

/-- C5: `addNode` issues exactly one remote command; when `masterId` is empty it
is `AddNodeAsMasterCmd newAddr existingAddr` and no issued command is an
`AddNodeAsSlaveCmd`; when `masterId` is not empty it is
`AddNodeAsSlaveCmd newAddr existingAddr masterId` and no issued command is an
`AddNodeAsMasterCmd`. -/
theorem addNode_selects_command (tbl : Char → Bool) (exec : Executor Config σ) (c : Config)
    (pod : Pod) (newAddr existingAddr masterId : String) (st : σ) :
    (addNode tbl exec c pod newAddr existingAddr masterId st).trace.length = 1 ∧
    (masterId = "" →
      (addNode tbl exec c pod newAddr existingAddr masterId st).trace.map Event.call
        = [⟨pod, none, Cmd.AddNodeAsMasterCmd c newAddr existingAddr⟩] ∧
      ∀ ev ∈ (addNode tbl exec c pod newAddr existingAddr masterId st).trace,
        ∀ c2 a b m, ev.call.command ≠ Cmd.AddNodeAsSlaveCmd c2 a b m) ∧
    (masterId ≠ "" →
      (addNode tbl exec c pod newAddr existingAddr masterId st).trace.map Event.call
        = [⟨pod, none, Cmd.AddNodeAsSlaveCmd c newAddr existingAddr masterId⟩] ∧
      ∀ ev ∈ (addNode tbl exec c pod newAddr existingAddr masterId st).trace,
        ∀ c2 a b, ev.call.command ≠ Cmd.AddNodeAsMasterCmd c2 a b) := by
  by_cases hm : masterId = ""
  · have ht : (addNode tbl exec c pod newAddr existingAddr masterId st).trace
        = [⟨⟨pod, none, Cmd.AddNodeAsMasterCmd c newAddr existingAddr⟩,
            (exec st ⟨pod, none, Cmd.AddNodeAsMasterCmd c newAddr existingAddr⟩).1⟩] := by
      simp only [addNode, hm, if_true]
      split <;> rfl
    rw [ht]
    simp [hm]
  · have ht : (addNode tbl exec c pod newAddr existingAddr masterId st).trace
        = [⟨⟨pod, none, Cmd.AddNodeAsSlaveCmd c newAddr existingAddr masterId⟩,
            (exec st ⟨pod, none,
              Cmd.AddNodeAsSlaveCmd c newAddr existingAddr masterId⟩).1⟩] := by
      simp only [addNode, hm, if_false]
      split <;> rfl
    rw [ht]
    simp [hm]

/-- Witness of C5: an empty master ID issues the add-as-master command. -/
theorem addNode_selects_command_witness :
    (addNode noTable okExec () pod0 "10.0.0.3:6379" "10.0.0.1:6379" "" ()).trace.map Event.call
      = [⟨pod0, none, Cmd.AddNodeAsMasterCmd () "10.0.0.3:6379" "10.0.0.1:6379"⟩] :=
  ((addNode_selects_command noTable okExec () pod0 "10.0.0.3:6379" "10.0.0.1:6379" ""
    ()).2.1 rfl).1

/-- C6: `createCluster` issues exactly one remote command, to the pod it is
given, built by `ClusterCreateCmd` from the whole address list in the given
order, with the input `yes`; every command of every other operation of the
file is issued without input. -/
theorem createCluster_single_command_with_input (tbl : Char → Bool)
    (exec : Executor Config σ) (c : Config) (pod : Pod) (st : σ) :
    (∀ addrs : List String, (createCluster exec c pod addrs st).trace.map Event.call
      = [⟨pod, some "yes", Cmd.ClusterCreateCmd c 0 addrs⟩]) ∧
    (∀ a b m : String, ∀ ev ∈ (addNode tbl exec c pod a b m st).trace,
      ev.call.input = none) ∧
    (∀ a b : String, ∀ ev ∈ (deleteNode tbl exec c pod a b st).trace, ev.call.input = none) ∧
    (∀ ip : String, ∀ ev ∈ (ping tbl exec pod ip st).trace, ev.call.input = none) ∧
    (∀ ip : String, ∀ ev ∈ (getClusterNodes tbl exec pod ip st).trace,
      ev.call.input = none) ∧
    (∀ a b p : String, ∀ ev ∈ (clusterMeet tbl exec pod a b p st).trace,
      ev.call.input = none) ∧
    (∀ ip t : String, ∀ ev ∈ (clusterReset tbl exec pod ip t st).trace,
      ev.call.input = none) ∧
    (∀ ip : String, ∀ ev ∈ (clusterFailover tbl exec pod ip st).trace,
      ev.call.input = none) ∧
    (∀ ip m : String, ∀ ev ∈ (clusterReplicate tbl exec pod ip m st).trace,
      ev.call.input = none) ∧
    (∀ (nodes : List (List RedisNode)) (src dst n : Int),
      ∀ ev ∈ (reshard tbl exec c pod nodes src dst n st).trace, ev.call.input = none) := by
  refine ⟨?_, ?_, ?_, ?_, ?_, ?_, ?_, ?_, ?_, ?_⟩
  · intro addrs
    simp only [createCluster]
    split <;> rfl
  · intro a b m ev hev
    simp only [addNode] at hev
    split at hev <;> split at hev <;> simp only [List.mem_singleton] at hev <;> rw [hev]
  · intro a b ev hev
    simp only [deleteNode] at hev
    split at hev <;> simp only [List.mem_singleton] at hev <;> rw [hev]
  · intro ip ev hev
    simp only [ping] at hev
    split at hev <;> simp only [List.mem_singleton] at hev <;> rw [hev]
  · intro ip ev hev
    simp only [getClusterNodes] at hev
    split at hev <;> simp only [List.mem_singleton] at hev <;> rw [hev]
  · intro a b p ev hev
    simp only [clusterMeet] at hev
    split at hev <;> simp only [List.mem_singleton] at hev <;> rw [hev]
  · intro ip t ev hev
    simp only [clusterReset] at hev
    split at hev <;> simp only [List.mem_singleton] at hev <;> rw [hev]
  · intro ip ev hev
    simp only [clusterFailover] at hev
    split at hev <;> simp only [List.mem_singleton] at hev <;> rw [hev]
  · intro ip m ev hev
    simp only [clusterReplicate] at hev
    split at hev <;> simp only [List.mem_singleton] at hev <;> rw [hev]
  · intro nodes src dst n
    exact reshard_inputs tbl exec c pod nodes src dst n st

/-- Witness of C6: three addresses give one command naming the three, with
the input `yes`. -/
theorem createCluster_single_command_with_input_witness :
    (createCluster okExec () pod0 ["10.0.0.1:6379", "10.0.0.2:6379", "10.0.0.3:6379"]
        ()).trace.map Event.call
      = [⟨pod0, some "yes",
          Cmd.ClusterCreateCmd () 0 ["10.0.0.1:6379", "10.0.0.2:6379", "10.0.0.3:6379"]⟩] :=
  (createCluster_single_command_with_input noTable okExec () pod0 ()).1
    ["10.0.0.1:6379", "10.0.0.2:6379", "10.0.0.3:6379"]

/-- C8: each of the nine single-command operations calls the executor exactly
once and returns an error if and only if that call returned one; `ping` and
`getClusterNodes` return the output of the call with the leading and trailing
white space trimmed when it succeeds, and the empty string when it fails. -/
theorem operations_call_once (tbl : Char → Bool) (exec : Executor Config σ) (c : Config)
    (pod : Pod) (st : σ) :
    (∀ addrs, OneCall exec st (createCluster exec c pod addrs st) id) ∧
    (∀ a b m, OneCall exec st (addNode tbl exec c pod a b m st) id) ∧
    (∀ a b, OneCall exec st (deleteNode tbl exec c pod a b st) id) ∧
    (∀ ip, OneCall exec st (ping tbl exec pod ip st) Prod.snd) ∧
    (∀ ip, OneCall exec st (getClusterNodes tbl exec pod ip st) Prod.snd) ∧
    (∀ a b p, OneCall exec st (clusterMeet tbl exec pod a b p st) id) ∧
    (∀ ip t, OneCall exec st (clusterReset tbl exec pod ip t st) id) ∧
    (∀ ip, OneCall exec st (clusterFailover tbl exec pod ip st) id) ∧
    (∀ ip m, OneCall exec st (clusterReplicate tbl exec pod ip m st) id) ∧
    (∀ ip,
      ((exec st ⟨pod, none, Cmd.PingCmd ip⟩).1.err = none →
        (ping tbl exec pod ip st).ret
            = (TrimSpace (exec st ⟨pod, none, Cmd.PingCmd ip⟩).1.out, none) ∧
          Trimmed (exec st ⟨pod, none, Cmd.PingCmd ip⟩).1.out
            (ping tbl exec pod ip st).ret.1) ∧
      ((exec st ⟨pod, none, Cmd.PingCmd ip⟩).1.err ≠ none →
        (ping tbl exec pod ip st).ret.1 = "")) ∧
    (∀ ip,
      ((exec st ⟨pod, none, Cmd.ClusterNodesCmd ip⟩).1.err = none →
        (getClusterNodes tbl exec pod ip st).ret
            = (TrimSpace (exec st ⟨pod, none, Cmd.ClusterNodesCmd ip⟩).1.out, none) ∧
          Trimmed (exec st ⟨pod, none, Cmd.ClusterNodesCmd ip⟩).1.out
            (getClusterNodes tbl exec pod ip st).ret.1) ∧
      ((exec st ⟨pod, none, Cmd.ClusterNodesCmd ip⟩).1.err ≠ none →
        (getClusterNodes tbl exec pod ip st).ret.1 = "")) := by
  refine ⟨?_, ?_, ?_, ?_, ?_, ?_, ?_, ?_, ?_, ?_, ?_⟩
  · intro addrs
    refine ⟨⟨pod, some "yes", Cmd.ClusterCreateCmd c 0 addrs⟩, ?_⟩
    simp only [createCluster]
    split <;> simp_all
  · intro a b m
    by_cases hm : m = ""
    · refine ⟨⟨pod, none, Cmd.AddNodeAsMasterCmd c a b⟩, ?_⟩
      simp only [addNode, hm, if_true]
      split <;> simp_all
    · refine ⟨⟨pod, none, Cmd.AddNodeAsSlaveCmd c a b m⟩, ?_⟩
      simp only [addNode, hm, if_false]
      split <;> simp_all
  · intro a b
    refine ⟨⟨pod, none, Cmd.DeleteNodeCmd c a b⟩, ?_⟩
    simp only [deleteNode]
    split <;> simp_all
  · intro ip
    refine ⟨⟨pod, none, Cmd.PingCmd ip⟩, ?_⟩
    simp only [ping]
    split <;> simp_all
  · intro ip
    refine ⟨⟨pod, none, Cmd.ClusterNodesCmd ip⟩, ?_⟩
    simp only [getClusterNodes]
    split <;> simp_all
  · intro a b p
    refine ⟨⟨pod, none, Cmd.ClusterMeetCmd a b p⟩, ?_⟩
    simp only [clusterMeet]
    split <;> simp_all
  · intro ip t
    refine ⟨⟨pod, none, Cmd.ClusterResetCmd ip t⟩, ?_⟩
    simp only [clusterReset]
    split <;> simp_all
  · intro ip
    refine ⟨⟨pod, none, Cmd.ClusterFailoverCmd ip⟩, ?_⟩
    simp only [clusterFailover]
    split <;> simp_all
  · intro ip m
    refine ⟨⟨pod, none, Cmd.ClusterReplicateCmd ip m⟩, ?_⟩
    simp only [clusterReplicate]
    split <;> simp_all
  · intro ip
    refine ⟨?_, ?_⟩
    · intro h
      have hr : (ping tbl exec pod ip st).ret
          = (TrimSpace (exec st ⟨pod, none, Cmd.PingCmd ip⟩).1.out, none) := by
        simp only [ping, h]
      exact ⟨hr, by rw [hr]; exact TrimSpace_spec _⟩
    · intro h
      simp only [ping]
      split
      · rfl
      · rename_i h2; exact absurd h2 h
  · intro ip
    refine ⟨?_, ?_⟩
    · intro h
      have hr : (getClusterNodes tbl exec pod ip st).ret
          = (TrimSpace (exec st ⟨pod, none, Cmd.ClusterNodesCmd ip⟩).1.out, none) := by
        simp only [getClusterNodes, h]
      exact ⟨hr, by rw [hr]; exact TrimSpace_spec _⟩
    · intro h
      simp only [getClusterNodes]
      split
      · rfl
      · rename_i h2; exact absurd h2 h

/-- Witness of C8: a probe answered with ` PONG` and a line feed returns
`PONG` and no error. -/
theorem operations_call_once_witness :
    (ping noTable pongExec pod0 "10.0.0.1" ()).ret = ("PONG", none) := by
  have h := ((operations_call_once noTable pongExec () pod0 ()).2.2.2.2.2.2.2.2.2.1
    "10.0.0.1").1 rfl
  rw [h.1]
  decide

/-- C7, as the code has it: when the remote execution fails, `deleteNode`
returns the error `Failed to delete node with ID`, a blank, the node ID as
`strconv.Quote` prints it, a colon, a blank and the cause; so the message
contains the quoted and escaped ID, and it contains the literal ID when every
character of the ID is printable and is neither a double quote nor a
backslash. -/
theorem deleteNode_error_names_quoted_id (tbl : Char → Bool) (exec : Executor Config σ)
    (c : Config) (pod : Pod) (existingAddr deletingNodeID : String) (st : σ) (cause : Error)
    (hfail : (exec st ⟨pod, none, Cmd.DeleteNodeCmd c existingAddr deletingNodeID⟩).1.err
      = some cause) :
    (deleteNode tbl exec c pod existingAddr deletingNodeID st).ret
      = some ("Failed to delete node with ID " ++ Quote tbl deletingNodeID ++ ": " ++ cause) ∧
    (Quote tbl deletingNodeID).data <:+:
      ("Failed to delete node with ID " ++ Quote tbl deletingNodeID ++ ": " ++ cause).data ∧
    ((∀ ch ∈ deletingNodeID.data, IsPrint tbl ch = true ∧ ch ≠ dquote ∧ ch ≠ bslash) →
      deletingNodeID.data <:+:
        ("Failed to delete node with ID " ++ Quote tbl deletingNodeID ++ ": " ++ cause).data)
    := by
  refine ⟨?_, ?_, ?_⟩
  · simp only [deleteNode, hfail, Wrapf]
  · refine ⟨"Failed to delete node with ID ".data, (": " ++ cause).data, ?_⟩
    simp [String.data_append]
  · intro h
    refine ⟨"Failed to delete node with ID ".data ++ [dquote],
      [dquote] ++ (": " ++ cause).data, ?_⟩
    simp [String.data_append, Quote, flatMap_escapedRune_plain tbl _ h]

/-- Witness of C7 as amended: the failed removal of node `aaaa`. -/
theorem deleteNode_error_names_quoted_id_witness :
    "aaaa".data <:+:
      ("Failed to delete node with ID " ++ Quote noTable "aaaa" ++ ": " ++ "boom").data :=
  (deleteNode_error_names_quoted_id noTable failExec () pod0 "10.0.0.1:6379" "aaaa" () "boom"
    rfl).2.2 (by decide)

/-- Counterexample to C7 as stated: for the node ID `a"b` and a remote failure
`boom` the message is `Failed to delete node with ID "a\"b": boom`, in which
the ID is escaped, and the literal ID does not occur in it. -/
theorem deleteNode_error_lacks_literal_id :
    (failExec () ⟨pod0, none, Cmd.DeleteNodeCmd () "10.0.0.1:6379" quoteID⟩).1.err
      = some "boom" ∧
    (deleteNode noTable failExec () pod0 "10.0.0.1:6379" quoteID ()).ret
      = some (String.mk ("Failed to delete node with ID ".data
          ++ [dquote, 'a', bslash, dquote, 'b', dquote] ++ ": boom".data)) ∧
    ¬ (quoteID.data <:+: (String.mk ("Failed to delete node with ID ".data
          ++ [dquote, 'a', bslash, dquote, 'b', dquote] ++ ": boom".data)).data) := by
  refine ⟨rfl, by decide, by decide⟩

/-- C9 on the code: `ping` of the member 10.0.0.2 through the pod whose own
address is 10.0.0.1, with the remote execution failing, returns the message
`Failed to ping "10.0.0.1": boom`: it names the address of the pod and does not
contain the probed address, unlike `getClusterNodes`, which names the address
it is given. -/
theorem ping_error_names_pod_address :
    (ping noTable failExec pod0 "10.0.0.2" ()).trace.map Event.call
      = [⟨pod0, none, Cmd.PingCmd "10.0.0.2"⟩] ∧
    (ping noTable failExec pod0 "10.0.0.2" ()).ret
      = ("", some (String.mk ("Failed to ping ".data ++ [dquote] ++ "10.0.0.1".data
          ++ [dquote] ++ ": boom".data))) ∧
    ¬ ("10.0.0.2".data <:+: (String.mk ("Failed to ping ".data ++ [dquote]
          ++ "10.0.0.1".data ++ [dquote] ++ ": boom".data)).data) ∧
    (getClusterNodes noTable failExec pod0 "10.0.0.2" ()).ret
      = ("", some (String.mk ("Failed to get cluster nodes from ".data ++ [dquote]
          ++ "10.0.0.2".data ++ [dquote] ++ ": boom".data))) := by
  refine ⟨by decide, by decide, by decide, by decide⟩

end Single

end ConfigureCluster
